import Mathlib

/-!
Shallow embedding of the `enumerate` adapter from `src/enumerate.hpp`.

The C++ code wraps a sequential container in an `Enumerator`, whose
`Iterator` tracks the container's own iterator together with a zero-based
position counter and yields `EnumeratedIteratorResult` pairs.

Modelling choices:
* A container is a `List α`; the container's own iterator is a position
  (a `Nat` index into the list): `begin` is `0`, `end` is the length, and
  iterator equality is position equality, which matches contiguous
  sequence containers (`std::array`, `std::vector`).
* Dereferencing an element handle (`*it`) is `c[i]?`; writing through an
  element handle (`*it = v`) is `List.set`.  Mutation is explicit state
  passing of the container value.
* The iteration loop `for (it = begin; it != end; ++it)` is embedded with
  explicit fuel (`container.length + 1` steps always suffice).
* The compile-time machinery (`std::tuple_element` specializations and
  const propagation through the two `enumerate` overloads) is embedded as
  a value-level type algebra `CppTy` with C++'s rule that `const` applied
  to a reference type or an already-const type collapses.
-/

/-- The result type yielded by dereferencing an enumerating iterator.
`index` is the zero-based position, `value` stores the container iterator
(here: a position into the list). -/
structure EnumeratedIteratorResult where
  index : Nat
  value : Nat
  deriving DecidableEq, Repr

/-- `get<0>`: returns the `index` member. -/
def get0 (enumeratedValue : EnumeratedIteratorResult) : Nat :=
  enumeratedValue.index

/-- `get<1>`: returns `*enumeratedValue.value`, the container element the
stored iterator points at. -/
def get1 (c : List α) (enumeratedValue : EnumeratedIteratorResult) : Option α :=
  c.get? enumeratedValue.value

/-- Writing through the element handle of a result: `*enumeratedValue.value = v`. -/
def writeElem (c : List α) (enumeratedValue : EnumeratedIteratorResult) (v : α) : List α :=
  c.set enumeratedValue.value v

namespace Enumerator

/-- `Enumerator::Iterator`: holds the container iterator `_containerIt`,
the position counter `_index`, and the embedded result `_enumeratedValue`. -/
structure Iterator where
  _enumeratedValue : EnumeratedIteratorResult
  _containerIt : Nat
  _index : Nat
  deriving DecidableEq, Repr

/-- The `Iterator(containerIt, index)` constructor: initializes the embedded
result from the two arguments. -/
def Iterator.init (containerIt : Nat) (index : Nat) : Iterator :=
  { _enumeratedValue := { index := index, value := containerIt }
    _containerIt := containerIt
    _index := index }

/-- `operator++`: advances the container iterator and the position counter,
then refreshes the two fields of the embedded result. -/
def Iterator.inc (it : Iterator) : Iterator :=
  let containerIt := it._containerIt + 1
  let index := it._index + 1
  { it with
    _containerIt := containerIt
    _index := index
    _enumeratedValue := { it._enumeratedValue with index := index, value := containerIt } }

/-- `operator==`: compares only the underlying container iterators. -/
def Iterator.beq (it other : Iterator) : Bool :=
  it._containerIt == other._containerIt

/-- `operator*` as a state-passing operation: returns the embedded result and
the (unmodified) iterator. -/
def Iterator.derefS (it : Iterator) : EnumeratedIteratorResult × Iterator :=
  (it._enumeratedValue, it)

/-- `operator*`, the yielded observation. -/
def Iterator.deref (it : Iterator) : EnumeratedIteratorResult :=
  it._enumeratedValue

end Enumerator

/-- `Enumerator<Container, ...>`: holds (a reference to) the bound container. -/
structure Enumerator (α : Type) where
  _container : List α

/-- `Container::begin()`: the first position of the container. -/
def containerBegin (_c : List α) : Nat := 0

/-- `Container::end()`: the one-past-last position of the container. -/
def containerEnd (c : List α) : Nat := c.length

/-- `Container::size()`: the element count of the container. -/
def containerSize (c : List α) : Nat := c.length

/-- `Enumerator::begin`: `Iterator(_container.begin(), 0)`. -/
def Enumerator.begin (e : Enumerator α) : Enumerator.Iterator :=
  Enumerator.Iterator.init (containerBegin e._container) 0

/-- `Enumerator::end`: `Iterator(_container.end(), _container.size())`. -/
def Enumerator.end' (e : Enumerator α) : Enumerator.Iterator :=
  Enumerator.Iterator.init (containerEnd e._container) (containerSize e._container)

/-- `enumerate(Container&)`: the mutable-binding entry function. -/
def enumerate (container : List α) : Enumerator α :=
  { _container := container }

/-- `enumerate(const Container&)`: the read-only-binding entry function. -/
def enumerateConst (container : List α) : Enumerator α :=
  { _container := container }

/-- The iteration loop `while (it != fin) { yield *it; ++it; }`, embedded
with explicit fuel. -/
def runFrom : Enumerator.Iterator → Enumerator.Iterator → Nat → List EnumeratedIteratorResult
  | _, _, 0 => []
  | it, fin, fuel + 1 =>
    if it.beq fin then [] else it.deref :: runFrom it.inc fin fuel

/-- The list of results yielded by a full `begin`-to-`end` iteration of the
enumerator (fuel `length + 1` always suffices; proved below). -/
def Enumerator.toList (e : Enumerator α) : List EnumeratedIteratorResult :=
  runFrom e.begin e.end' (e._container.length + 1)

/-- The read-only enumeration loop with the container state threaded through
each step: every step observes `(get<0>, get<1>)` of the yielded result and
leaves the container untouched. -/
def roReadLoop : List EnumeratedIteratorResult → List α → List (Nat × Option α) →
    List (Nat × Option α) × List α
  | [], c, acc => (acc.reverse, c)
  | r :: rs, c, acc => roReadLoop rs c ((get0 r, get1 c r) :: acc)

/-- Read-only enumeration of a container: the observed `(position, element)`
pairs, together with the container state after the session. -/
def readEnumS (c : List α) : List (Nat × Option α) × List α :=
  roReadLoop ((enumerateConst c).toList) c []

/-- Mutable enumeration writing `f position` through the element handle of
every yielded result (the test writes `value = index`, i.e. `f = id`). -/
def mutEnumWrite (c : List α) (f : Nat → α) : List α :=
  ((enumerate c).toList).foldl (fun acc r => writeElem acc r (f (get0 r))) c

/-- A fragment of the C++ type grammar, enough to express the types the
source's `std::tuple_element` specializations and `get` overloads compute:
`size_t`, arbitrary object types, `const`-qualified types and references. -/
inductive CppTy where
  | sizeT : CppTy
  | objTy : Nat → CppTy
  | constQ : CppTy → CppTy
  | ref : CppTy → CppTy
  deriving DecidableEq, Repr

/-- Applying `const` to a C++ type: on a reference type or an already-const
type it has no effect (C++ collapses both). -/
def applyConst : CppTy → CppTy
  | CppTy.ref t => CppTy.ref t
  | CppTy.constQ t => CppTy.constQ t
  | t => CppTy.constQ t

/-- Strip one outer reference, if any. -/
def stripRef : CppTy → CppTy
  | CppTy.ref t => t
  | t => t

/-- Whether a type is `const`-qualified at the top. -/
def isConstQ : CppTy → Bool
  | CppTy.constQ _ => true
  | _ => false

/-- Whether a C++ expression of this type can be assigned through: writes are
rejected at compile time exactly when the referenced type is `const`. -/
def writable (t : CppTy) : Bool :=
  !(isConstQ (stripRef t))

/-- An object type is neither a reference nor `const`-qualified (container
`value_type`s are object types). -/
def CppTy.isObject : CppTy → Bool
  | CppTy.objTy _ => true
  | CppTy.sizeT => true
  | _ => false

/-- A container iterator type: either `Container::iterator` or
`Container::const_iterator` over element type `t`. -/
inductive CppIter where
  | iter : CppTy → CppIter
  | constIter : CppTy → CppIter
  deriving DecidableEq, Repr

/-- The type of `*it`: `iterator` dereferences to `T&`,
`const_iterator` to `const T&`. -/
def CppIter.derefTy : CppIter → CppTy
  | CppIter.iter t => CppTy.ref t
  | CppIter.constIter t => CppTy.ref (applyConst t)

/-- One instantiation of `EnumeratedIteratorResult<IteratorType, ValueType>`. -/
structure ResultInst where
  iteratorType : CppIter
  valueType : CppTy
  deriving DecidableEq, Repr

/-- The member alias `index_type = size_t`. -/
def ResultInst.index_type (_ : ResultInst) : CppTy := CppTy.sizeT

/-- The member alias `value_type = ValueType`. -/
def ResultInst.value_type (r : ResultInst) : CppTy := r.valueType

/-- The member alias `ref_type = ValueType&`. -/
def ResultInst.ref_type (r : ResultInst) : CppTy := CppTy.ref r.valueType

/-- `std::tuple_size<EnumeratedIteratorResult<I, V>>::value = 2`. -/
def tuple_size (_ : ResultInst) : Nat := 2

/-- `std::tuple_element<0, E>::type = const index_type`. -/
def tuple_element0 (r : ResultInst) : CppTy :=
  applyConst r.index_type

/-- `std::tuple_element<1, E&>::type = ref_type`. -/
def tuple_element1_ref (r : ResultInst) : CppTy :=
  r.ref_type

/-- `std::tuple_element<1, const E&>::type = const ref_type`. -/
def tuple_element1_constRef (r : ResultInst) : CppTy :=
  applyConst r.ref_type

/-- `std::tuple_element<1, E>::type = value_type`. -/
def tuple_element1_val (r : ResultInst) : CppTy :=
  r.value_type

/-- `std::tuple_element<1, const E>::type = const value_type`. -/
def tuple_element1_constVal (r : ResultInst) : CppTy :=
  applyConst r.value_type

/-- The return type of the non-const `get<1>` overload (`auto&` deduced from
`*enumeratedValue.value`). -/
def getOneTy (r : ResultInst) : CppTy :=
  r.iteratorType.derefTy

/-- The return type of the const `get<1>` overload (`const auto&` deduced
from `*enumeratedValue.value`). -/
def getOneTyConst (r : ResultInst) : CppTy :=
  CppTy.ref (applyConst (stripRef r.iteratorType.derefTy))

/-- The instantiation produced by `enumerate(Container&)`:
`ValueType = Container::value_type`, `IteratorType = Container::iterator`. -/
def mutableResultInst (t : CppTy) : ResultInst :=
  { iteratorType := CppIter.iter t, valueType := t }

/-- The instantiation produced by `enumerate(const Container&)`:
`ValueType = const Container::value_type`,
`IteratorType = Container::const_iterator`. -/
def constResultInst (t : CppTy) : ResultInst :=
  { iteratorType := CppIter.constIter t, valueType := applyConst t }

/-- The synchronization invariant between a cursor and its embedded result:
the result's `index` mirrors the cursor's position counter and the result's
stored iterator mirrors the cursor's container iterator. -/
def Enumerator.Iterator.synced (it : Enumerator.Iterator) : Prop :=
  it._enumeratedValue.index = it._index ∧ it._enumeratedValue.value = it._containerIt

/-! ## Helper lemmas -/

theorem enumerateConst_eq_enumerate (c : List α) : enumerateConst c = enumerate c := rfl

theorem runFrom_init (fuel : Nat) : ∀ k n : Nat, k ≤ n → n - k < fuel →
    runFrom (Enumerator.Iterator.init k k) (Enumerator.Iterator.init n n) fuel =
      (List.range' k (n - k)).map (fun i => { index := i, value := i }) := by
  induction fuel with
  | zero => intro k n _ hf; omega
  | succ fuel ih =>
    intro k n hk hf
    by_cases h : k = n
    · subst h
      simp [runFrom, Enumerator.Iterator.beq, Enumerator.Iterator.init]
    · have hkn : k < n := Nat.lt_of_le_of_ne hk h
      have hbeq : (Enumerator.Iterator.init k k).beq (Enumerator.Iterator.init n n) = false := by
        simp [Enumerator.Iterator.beq, Enumerator.Iterator.init, h]
      have hinc : (Enumerator.Iterator.init k k).inc =
          Enumerator.Iterator.init (k + 1) (k + 1) := rfl
      have hsub : n - k = (n - (k + 1)) + 1 := by omega
      rw [runFrom, hbeq]
      simp only [Bool.false_eq_true, if_false]
      rw [hinc, ih (k + 1) n (by omega) (by omega), hsub, List.range'_succ]
      rfl

theorem toList_enumerate (c : List α) :
    (enumerate c).toList = (List.range c.length).map (fun i => { index := i, value := i }) := by
  have h : (enumerate c).toList =
      runFrom (Enumerator.Iterator.init 0 0)
        (Enumerator.Iterator.init c.length c.length) (c.length + 1) := rfl
  rw [h, runFrom_init (c.length + 1) 0 c.length (Nat.zero_le _) (by omega), Nat.sub_zero,
    List.range_eq_range']

theorem roReadLoop_snd (rs : List EnumeratedIteratorResult) (c : List α)
    (acc : List (Nat × Option α)) : (roReadLoop rs c acc).2 = c := by
  induction rs generalizing acc with
  | nil => rfl
  | cons r rs ih => exact ih _

theorem roReadLoop_fst (rs : List EnumeratedIteratorResult) (c : List α)
    (acc : List (Nat × Option α)) :
    (roReadLoop rs c acc).1 = acc.reverse ++ rs.map (fun r => (get0 r, get1 c r)) := by
  induction rs generalizing acc with
  | nil => simp [roReadLoop]
  | cons r rs ih => simp [roReadLoop, ih]

theorem foldl_set_length (f : Nat → α) (js : List Nat) : ∀ acc : List α,
    (js.foldl (fun a i => a.set i (f i)) acc).length = acc.length := by
  induction js with
  | nil => intro acc; rfl
  | cons i js ih => intro acc; rw [List.foldl_cons, ih, List.length_set]

theorem foldl_set_get? (f : Nat → α) (js : List Nat) : ∀ (acc : List α) (j : Nat),
    (js.foldl (fun a i => a.set i (f i)) acc).get? j =
      if j ∈ js ∧ j < acc.length then some (f j) else acc.get? j := by
  induction js with
  | nil => intro acc j; simp
  | cons i js ih =>
    intro acc j
    rw [List.foldl_cons, ih, List.length_set]
    by_cases hmem : j ∈ js ∧ j < acc.length
    · rw [if_pos hmem, if_pos ⟨List.mem_cons_of_mem i hmem.1, hmem.2⟩]
    · rw [if_neg hmem]
      by_cases hij : i = j
      · subst hij
        rw [List.get?_set_eq]
        by_cases hlt : i < acc.length
        · rw [if_pos ⟨List.mem_cons_self i js, hlt⟩, List.get?_eq_get hlt]
          rfl
        · rw [if_neg (fun hc => hlt hc.2), List.get?_eq_none.mpr (by omega)]
          rfl
      · rw [List.get?_set_ne _ _ hij]
        rw [if_neg (fun hc =>
          hmem ⟨(List.mem_cons.mp hc.1).resolve_left (fun he => hij he.symm), hc.2⟩)]

theorem mutEnumWrite_eq (c : List α) (f : Nat → α) :
    mutEnumWrite c f = (List.range c.length).map f := by
  have h1 : mutEnumWrite c f =
      (List.range c.length).foldl (fun a i => a.set i (f i)) c := by
    rw [mutEnumWrite, toList_enumerate, List.foldl_map]
    rfl
  rw [h1]
  apply List.ext_get?
  intro j
  rw [foldl_set_get?]
  by_cases hj : j < c.length
  · rw [if_pos ⟨List.mem_range.mpr hj, hj⟩, List.get?_map, List.get?_range hj]
    rfl
  · rw [if_neg (fun hc => hj hc.2), List.get?_eq_none.mpr (by omega),
      List.get?_eq_none.mpr (by simp [List.length_map, List.length_range]; omega)]

/-! ## Claims -/

/-- Claim C1: for every container of size N enumerated via the read-only
binding, iterating with the cursors produced by `begin` and `end` until the
cursor equals `end` yields exactly the positions `0, 1, ..., N-1` in order,
with no gaps, repeats, or reordering. -/
theorem enumerate_readonly_positions_exact (c : List α) :
    ((enumerateConst c).toList).map get0 = List.range c.length := by
  rw [enumerateConst_eq_enumerate, toList_enumerate, List.map_map]
  have h : (get0 ∘ fun i => ({ index := i, value := i } : EnumeratedIteratorResult)) = id := rfl
  rw [h, List.map_id]

/-- Claim C2: for every container enumerated via the mutable binding, writing
a value through the yielded element handle at each position `i` and then
re-reading the container shows the written values at the corresponding
indices, while the observed positions remain exactly `0..N-1`; in particular,
a container of 10 zero-initialized integers with each element set to its own
index re-enumerates read-only to exactly the pairs (0,0), ..., (9,9). -/
theorem enumerate_mutable_write_roundtrip (c : List α) (f : Nat → α) :
    mutEnumWrite c f = (List.range c.length).map f ∧
    ((enumerate c).toList).map get0 = List.range c.length ∧
    readEnumS (mutEnumWrite (List.replicate 10 (0 : Nat)) (fun i => i)) =
      ((List.range 10).map (fun i => (i, some i)), List.range 10) := by
  refine ⟨mutEnumWrite_eq c f, ?_, by decide⟩
  rw [toList_enumerate, List.map_map]
  have h : (get0 ∘ fun i => ({ index := i, value := i } : EnumeratedIteratorResult)) = id := rfl
  rw [h, List.map_id]

/-- Claim C3: the result pair exposes exactly two logical fields
(`tuple_size = 2`), each retrievable by name or by structural position with
both access paths agreeing, and field 0 (the position) is presented
read-only (`const`-qualified) regardless of the binding mode. -/
theorem result_pair_two_fields_agree :
    (∀ r : ResultInst, tuple_size r = 2) ∧
    (∀ r : EnumeratedIteratorResult, get0 r = r.index) ∧
    (∀ (α : Type) (c : List α) (r : EnumeratedIteratorResult), get1 c r = c.get? r.value) ∧
    (∀ t : CppTy, writable (tuple_element0 (mutableResultInst t)) = false) ∧
    (∀ t : CppTy, writable (tuple_element0 (constResultInst t)) = false) :=
  ⟨fun _ => rfl, fun _ => rfl, fun _ _ _ => rfl, fun _ => rfl, fun _ => rfl⟩

/-- Claim C4: for a container bound through the read-only entry path, every
channel through which a yielded result exposes the element — the `get`
overloads and all `tuple_element<1, _>` specializations — has a
`const`-qualified type, so a write through it is rejected at compile time:
a read-only container is never enumerated into mutable result pairs. -/
theorem readonly_binding_write_rejected (t : CppTy) (h : t.isObject = true) :
    writable (getOneTy (constResultInst t)) = false ∧
    writable (getOneTyConst (constResultInst t)) = false ∧
    writable (tuple_element1_ref (constResultInst t)) = false ∧
    writable (tuple_element1_constRef (constResultInst t)) = false ∧
    writable (tuple_element1_val (constResultInst t)) = false ∧
    writable (tuple_element1_constVal (constResultInst t)) = false := by
  cases t with
  | sizeT => exact ⟨rfl, rfl, rfl, rfl, rfl, rfl⟩
  | objTy n => exact ⟨rfl, rfl, rfl, rfl, rfl, rfl⟩
  | constQ s => simp [CppTy.isObject] at h
  | ref s => simp [CppTy.isObject] at h

/-- Witness for C4 at the concrete object type `objTy 0`. -/
theorem readonly_binding_write_rejected_witness :
    (CppTy.objTy 0).isObject = true ∧
    (writable (getOneTy (constResultInst (CppTy.objTy 0))) = false ∧
      writable (getOneTyConst (constResultInst (CppTy.objTy 0))) = false ∧
      writable (tuple_element1_ref (constResultInst (CppTy.objTy 0))) = false ∧
      writable (tuple_element1_constRef (constResultInst (CppTy.objTy 0))) = false ∧
      writable (tuple_element1_val (constResultInst (CppTy.objTy 0))) = false ∧
      writable (tuple_element1_constVal (constResultInst (CppTy.objTy 0))) = false) :=
  ⟨rfl, readonly_binding_write_rejected (CppTy.objTy 0) rfl⟩

/-- Claim C5: two cursors compare equal exactly when their underlying
container iterators compare equal; the position counters are never
consulted, so cursors with equal container iterators but different position
counters still compare equal. -/
theorem iterator_eq_ignores_index :
    (∀ a b : Enumerator.Iterator,
      a.beq b = decide (a._containerIt = b._containerIt)) ∧
    (Enumerator.Iterator.init 5 0).beq (Enumerator.Iterator.init 5 3) = true ∧
    ((Enumerator.Iterator.init 5 0)._index == (Enumerator.Iterator.init 5 3)._index) = false := by
  refine ⟨fun a b => ?_, rfl, rfl⟩
  by_cases h : a._containerIt = b._containerIt
  · simp [Enumerator.Iterator.beq, h]
  · simp [Enumerator.Iterator.beq, h]

/-- Claim C6: for an empty container the `begin` and `end` cursors compare
equal immediately, and the enumeration yields no result pair. -/
theorem empty_container_begin_eq_end (c : List α) (h : c.length = 0) :
    ((enumerate c).begin).beq ((enumerate c).end') = true ∧
    (enumerate c).toList = [] := by
  constructor
  · simp [Enumerator.begin, Enumerator.end', Enumerator.Iterator.beq,
      Enumerator.Iterator.init, containerBegin, containerEnd, containerSize, enumerate, h]
  · rw [toList_enumerate, h]
    rfl

/-- Witness for C6 at the concrete empty container `[] : List Nat`. -/
theorem empty_container_begin_eq_end_witness :
    ([] : List Nat).length = 0 ∧
    (((enumerate ([] : List Nat)).begin).beq ((enumerate ([] : List Nat)).end') = true ∧
      (enumerate ([] : List Nat)).toList = []) :=
  ⟨rfl, empty_container_begin_eq_end [] rfl⟩

/-- Claim C7: `begin` wraps the container's first position with counter 0,
`end` wraps the one-past-last position with counter equal to the element
count, and dereferencing a fresh `begin` cursor observes position 0 and the
container's first element (`head?`). -/
theorem begin_end_cursor_shape (c : List α) :
    (enumerate c).begin._containerIt = containerBegin c ∧
    (enumerate c).begin._index = 0 ∧
    (enumerate c).end'._containerIt = containerEnd c ∧
    (enumerate c).end'._index = containerSize c ∧
    get0 ((enumerate c).begin.deref) = 0 ∧
    get1 c ((enumerate c).begin.deref) = c.head? := by
  refine ⟨rfl, rfl, rfl, rfl, rfl, ?_⟩
  cases c <;> rfl

/-- Claim C8: `current()` is idempotent: dereferencing twice without an
intervening advance yields the same (position, element) observation, and the
cursor state is unchanged by dereferencing. -/
theorem current_idempotent (c : List α) (it : Enumerator.Iterator) :
    (get0 (it.derefS.1), get1 c (it.derefS.1)) =
      (get0 ((it.derefS.2.derefS).1), get1 c ((it.derefS.2.derefS).1)) ∧
    (it.derefS.2.derefS).2 = it.derefS.2 :=
  ⟨rfl, rfl⟩

/-- Claim C9: a read-only enumeration leaves the container unchanged and
observes the pairs `(i, element at i)` for `i = 0..N-1` in ascending order;
in particular 10 default-initialized integers are observed at positions 0..9
with their default values, unmutated. -/
theorem readonly_enumeration_frame (c : List α) :
    (readEnumS c).2 = c ∧
    (readEnumS c).1 = (List.range c.length).map (fun i => (i, c.get? i)) ∧
    readEnumS (List.replicate 10 (0 : Int)) =
      ((List.range 10).map (fun i => (i, some (0 : Int))), List.replicate 10 0) := by
  refine ⟨roReadLoop_snd _ _ _, ?_, by decide⟩
  rw [readEnumS, roReadLoop_fst, enumerateConst_eq_enumerate, toList_enumerate, List.map_map]
  rfl

/-- Claim C10: the embedded result pair stays in sync with its cursor: after
construction by `begin` or `end`, and after every advance, the result's
`index` equals the cursor's position counter and the result's stored
iterator equals the cursor's container iterator. -/
theorem cursor_result_sync_invariant :
    (∀ (α : Type) (e : Enumerator α), e.begin.synced ∧ e.end'.synced) ∧
    (∀ it : Enumerator.Iterator, it.inc.synced) :=
  ⟨fun _ _ => ⟨⟨rfl, rfl⟩, ⟨rfl, rfl⟩⟩, fun _ => ⟨rfl, rfl⟩⟩
